import Mathlib

set_option maxHeartbeats 1000000

namespace ECEN2370

/-! Shallow embedding of the concurrency core of the ECEN 2370 firmware
(scheduler.c, sleep_routines.c, ble.c, i2c.c, leuart.c), with theorems about
the event scheduler, the sleep arbiter, the outbound ring buffer, and the two
interrupt-driven state machines. -/

/-! ## Event scheduler (Lab 6, scheduler.c)

The pending-event set is the 32-bit word `static unsigned int event_scheduled`;
each operation is modelled as a pure function of that word. -/

/-- All-ones value of the 32-bit `event_scheduled` word. -/
def WORD_MASK : ℕ := 2 ^ 32 - 1

/-- `add_scheduled_event` (scheduler.c line 63): `event_scheduled |= event;`. -/
def add_scheduled_event (event_scheduled event : ℕ) : ℕ :=
  event_scheduled ||| event

/-- `remove_scheduled_event` (scheduler.c line 89): `event_scheduled &= ~event;`.
The 32-bit complement of `event` is its xor with the all-ones word. -/
def remove_scheduled_event (event_scheduled event : ℕ) : ℕ :=
  event_scheduled &&& (WORD_MASK ^^^ event)

/-- `get_scheduled_events` (scheduler.c line 108): returns `event_scheduled`. -/
def get_scheduled_events (event_scheduled : ℕ) : ℕ :=
  event_scheduled

/-! ## Sleep arbiter (Lab 3, sleep_routines.c)

The hold table is `static int lowest_energy_mode[MAX_ENERGY_MODES]`, modelled
as a function from mode index to the (C `int`) counter value. -/

/-- Number of tracked energy modes. `sleep_routines.h` is not in the repository
subset; the value 5 is fixed by `sleep_open`'s doc comment ("enable all 5 of the
energy modes") and by the EM0..EM4 naming, with `EM0`..`EM4` the indices 0..4. -/
def MAX_ENERGY_MODES : ℕ := 5

def EM0 : ℕ := 0
def EM1 : ℕ := 1
def EM2 : ℕ := 2
def EM3 : ℕ := 3
def EM4 : ℕ := 4

/-- Pointwise store into a modelled C array: `a[i] = v`. -/
def setFn {α : Type} (f : ℕ → α) (i : ℕ) (v : α) : ℕ → α :=
  fun j => if j = i then v else f j

/-- `sleep_block_mode` (sleep_routines.c line 120): increments
`lowest_energy_mode[EM]`, then `EFM_ASSERT(lowest_energy_mode[EM] < 5)`;
`none` models the failed assertion. -/
def sleep_block_mode (c : ℕ → ℤ) (EM : ℕ) : Option (ℕ → ℤ) :=
  let c' := setFn c EM (c EM + 1)
  if c' EM < 5 then some c' else none

/-- `sleep_unblock_mode` (sleep_routines.c line 93): decrements
`lowest_energy_mode[EM]`, then `EFM_ASSERT(lowest_energy_mode[EM] >= 0)`;
`none` models the failed assertion. -/
def sleep_unblock_mode (c : ℕ → ℤ) (EM : ℕ) : Option (ℕ → ℤ) :=
  let c' := setFn c EM (c EM - 1)
  if 0 ≤ c' EM then some c' else none

/-- `current_block_energy_mode` (sleep_routines.c line 181): the `for` loop over
`i < MAX_ENERGY_MODES` returning the first `i` with `lowest_energy_mode[i] != 0`,
else `MAX_ENERGY_MODES - 1`; unrolled for the fixed `MAX_ENERGY_MODES = 5`. -/
def current_block_energy_mode (c : ℕ → ℤ) : ℕ :=
  if c 0 ≠ 0 then 0
  else if c 1 ≠ 0 then 1
  else if c 2 ≠ 0 then 2
  else if c 3 ≠ 0 then 3
  else if c 4 ≠ 0 then 4
  else MAX_ENERGY_MODES - 1

/-- `enter_sleep` (sleep_routines.c line 142). `some m` means the mode-specific
entry primitive `EMU_EnterEMm` is invoked; `none` means no entry primitive runs
(the two first branches are empty, so the processor stays in EM0 run mode). -/
def enter_sleep (c : ℕ → ℤ) : Option ℕ :=
  if c EM0 > 0 then none
  else if c EM1 > 0 then none
  else if c EM2 > 0 then some 1
  else if c EM3 > 0 then some 2
  else some 3

/-- The energy mode the processor is in after `enter_sleep` returns control:
the entered low-power mode, or EM0 when no entry primitive ran. -/
def mode_entered (c : ℕ → ℤ) : ℕ :=
  (enter_sleep c).getD 0

/-- One call against the sleep arbiter. -/
inductive SleepOp where
  | block (EM : ℕ)
  | unblock (EM : ℕ)
deriving DecidableEq, Repr

/-- Dispatch one arbiter call. -/
def applySleepOp (c : ℕ → ℤ) : SleepOp → Option (ℕ → ℤ)
  | .block EM => sleep_block_mode c EM
  | .unblock EM => sleep_unblock_mode c EM

/-- Run a sequence of `sleep_block_mode` / `sleep_unblock_mode` calls;
`none` as soon as one of them hits its assertion. -/
def runSleepOps (c : ℕ → ℤ) : List SleepOp → Option (ℕ → ℤ)
  | [] => some c
  | op :: ops => (applySleepOp c op).bind fun c' => runSleepOps c' ops

/-- The all-zero hold table `sleep_open` produces. -/
def zeroHolds : ℕ → ℤ := fun _ => 0

/-- One surviving arbiter call keeps every counter non-negative
(the `sleep_unblock_mode` assertion enforces it on the touched counter, and
`sleep_block_mode` only increments). -/
theorem applySleepOp_nonneg (c c' : ℕ → ℤ) (op : SleepOp)
    (happ : applySleepOp c op = some c') (hc : ∀ j, 0 ≤ c j) : ∀ j, 0 ≤ c' j := by
  cases op with
  | block EM =>
    simp only [applySleepOp, sleep_block_mode] at happ
    split at happ
    · cases happ
      intro j
      by_cases hj : j = EM <;> simp [setFn, hj]
      · have := hc EM; omega
      · exact hc j
    · cases happ
  | unblock EM =>
    simp only [applySleepOp, sleep_unblock_mode] at happ
    split at happ
    next hcond =>
      cases happ
      intro j
      by_cases hj : j = EM <;> simp [setFn, hj]
      · simpa [setFn] using hcond
      · exact hc j
    next => cases happ

/-- A completed run of arbiter calls keeps every counter non-negative. -/
theorem runSleepOps_nonneg (ops : List SleepOp) :
    ∀ (c c' : ℕ → ℤ), runSleepOps c ops = some c' → (∀ j, 0 ≤ c j) → ∀ j, 0 ≤ c' j := by
  induction ops with
  | nil =>
    intro c c' hrun hc
    simp only [runSleepOps, Option.some.injEq] at hrun
    subst hrun; exact hc
  | cons op ops ih =>
    intro c c' hrun hc
    simp only [runSleepOps] at hrun
    cases happ : applySleepOp c op with
    | none => rw [happ] at hrun; cases hrun
    | some c1 =>
      rw [happ] at hrun
      exact ih c1 c' hrun (applySleepOp_nonneg c c1 op happ hc)

/-- Claim C8: after any completed sequence of `sleep_block_mode` /
`sleep_unblock_mode` calls starting from the zeroed table (completion encodes
that every counter stayed non-negative), `current_block_energy_mode` returns
the shallowest (lowest-numbered) mode with a nonzero counter, or
`MAX_ENERGY_MODES - 1 = 4` when every counter is zero: every mode below the
returned one has a zero counter, the returned mode is below 5 and has a
nonzero counter unless all five counters are zero, in which case 4 comes back. -/
theorem current_block_energy_mode_shallowest (ops : List SleepOp) (c' : ℕ → ℤ) (j : ℕ)
    (hrun : runSleepOps zeroHolds ops = some c') :
    0 ≤ c' j ∧
    current_block_energy_mode c' < 5 ∧
    (0 < current_block_energy_mode c' → c' 0 = 0) ∧
    (1 < current_block_energy_mode c' → c' 1 = 0) ∧
    (2 < current_block_energy_mode c' → c' 2 = 0) ∧
    (3 < current_block_energy_mode c' → c' 3 = 0) ∧
    (c' (current_block_energy_mode c') ≠ 0 ∨
      (c' 0 = 0 ∧ c' 1 = 0 ∧ c' 2 = 0 ∧ c' 3 = 0 ∧ c' 4 = 0)) ∧
    ((c' 0 = 0 ∧ c' 1 = 0 ∧ c' 2 = 0 ∧ c' 3 = 0 ∧ c' 4 = 0) →
      current_block_energy_mode c' = MAX_ENERGY_MODES - 1) := by
  have hnn : ∀ j, 0 ≤ c' j :=
    runSleepOps_nonneg ops zeroHolds c' hrun (fun _ => le_refl 0)
  refine ⟨hnn j, ?_⟩
  by_cases h0 : c' 0 = 0 <;> by_cases h1 : c' 1 = 0 <;> by_cases h2 : c' 2 = 0 <;>
    by_cases h3 : c' 3 = 0 <;> by_cases h4 : c' 4 = 0 <;>
    simp [current_block_energy_mode, MAX_ENERGY_MODES, h0, h1, h2, h3, h4]

/-- Witness for C8: blocking EM2 once from the zero table leaves the scan at
mode 2, with modes 0 and 1 unheld. -/
theorem current_block_energy_mode_shallowest_witness :
    0 ≤ setFn zeroHolds 2 (zeroHolds 2 + 1) 0 ∧
    current_block_energy_mode (setFn zeroHolds 2 (zeroHolds 2 + 1)) < 5 ∧
    (0 < current_block_energy_mode (setFn zeroHolds 2 (zeroHolds 2 + 1)) →
      setFn zeroHolds 2 (zeroHolds 2 + 1) 0 = 0) ∧
    (1 < current_block_energy_mode (setFn zeroHolds 2 (zeroHolds 2 + 1)) →
      setFn zeroHolds 2 (zeroHolds 2 + 1) 1 = 0) ∧
    (2 < current_block_energy_mode (setFn zeroHolds 2 (zeroHolds 2 + 1)) →
      setFn zeroHolds 2 (zeroHolds 2 + 1) 2 = 0) ∧
    (3 < current_block_energy_mode (setFn zeroHolds 2 (zeroHolds 2 + 1)) →
      setFn zeroHolds 2 (zeroHolds 2 + 1) 3 = 0) ∧
    (setFn zeroHolds 2 (zeroHolds 2 + 1)
        (current_block_energy_mode (setFn zeroHolds 2 (zeroHolds 2 + 1))) ≠ 0 ∨
      (setFn zeroHolds 2 (zeroHolds 2 + 1) 0 = 0 ∧
       setFn zeroHolds 2 (zeroHolds 2 + 1) 1 = 0 ∧
       setFn zeroHolds 2 (zeroHolds 2 + 1) 2 = 0 ∧
       setFn zeroHolds 2 (zeroHolds 2 + 1) 3 = 0 ∧
       setFn zeroHolds 2 (zeroHolds 2 + 1) 4 = 0)) ∧
    ((setFn zeroHolds 2 (zeroHolds 2 + 1) 0 = 0 ∧
      setFn zeroHolds 2 (zeroHolds 2 + 1) 1 = 0 ∧
      setFn zeroHolds 2 (zeroHolds 2 + 1) 2 = 0 ∧
      setFn zeroHolds 2 (zeroHolds 2 + 1) 3 = 0 ∧
      setFn zeroHolds 2 (zeroHolds 2 + 1) 4 = 0) →
      current_block_energy_mode (setFn zeroHolds 2 (zeroHolds 2 + 1)) =
        MAX_ENERGY_MODES - 1) :=
  current_block_energy_mode_shallowest [SleepOp.block 2]
    (setFn zeroHolds 2 (zeroHolds 2 + 1)) 0 rfl

/-- Claim C4 counterexample: with every hold counter zero, `enter_sleep` invokes
`EMU_EnterEM3` (enters mode 3), while `current_block_energy_mode` — the
deepest-allowed-mode scan — returns `MAX_ENERGY_MODES - 1 = 4`; the entered
mode is not the scan's result. -/
theorem enter_sleep_not_scan_result :
    mode_entered zeroHolds = 3 ∧
    current_block_energy_mode zeroHolds = 4 ∧
    mode_entered zeroHolds ≠ current_block_energy_mode zeroHolds := by
  decide

/-- Claim C4 (amended): for every non-negative hold table, `enter_sleep` enters
the mode immediately shallower than `current_block_energy_mode()` — entered
mode = scan result minus one (truncated at EM0); in particular it stays awake
(EM0) when EM0 or EM1 is blocked, and enters EM3, not EM4, when every counter
is zero. -/
theorem enter_sleep_one_shallower (c : ℕ → ℤ) (h0 : 0 ≤ c 0) (h1 : 0 ≤ c 1)
    (h2 : 0 ≤ c 2) (h3 : 0 ≤ c 3) :
    mode_entered c = current_block_energy_mode c - 1 := by
  simp only [mode_entered, enter_sleep, current_block_energy_mode,
    MAX_ENERGY_MODES, EM0, EM1, EM2, EM3]
  split_ifs <;> simp_all <;> omega

/-- Witness for the amended C4: blocking only EM2 makes the scan return 2 and
`enter_sleep` enter EM1. -/
theorem enter_sleep_one_shallower_witness :
    mode_entered (setFn zeroHolds 2 1) = current_block_energy_mode (setFn zeroHolds 2 1) - 1 :=
  enter_sleep_one_shallower (setFn zeroHolds 2 1) (by decide) (by decide)
    (by decide) (by decide)

/-- Bit `b` of the all-ones 32-bit word is set exactly for `b < 32`. -/
theorem WORD_MASK_testBit (b : ℕ) : WORD_MASK.testBit b = decide (b < 32) :=
  Nat.testBit_two_pow_sub_one 32 b

/-- Claim C9: posting an event mask shows each of its bits set, removing shows
them cleared, posting twice equals posting once, and both operations leave the
bits outside the mask unchanged (`s` the prior 32-bit scheduler word, `e` the
event mask, `b` a bit position). -/
theorem scheduled_event_bit_laws (s e b : ℕ) (hs : s < 2 ^ 32) (he : e < 2 ^ 32) :
    (e.testBit b = true →
      (get_scheduled_events (add_scheduled_event s e)).testBit b = true) ∧
    (e.testBit b = true →
      (get_scheduled_events (remove_scheduled_event s e)).testBit b = false) ∧
    (add_scheduled_event (add_scheduled_event s e) e = add_scheduled_event s e) ∧
    (e.testBit b = false → (add_scheduled_event s e).testBit b = s.testBit b) ∧
    (e.testBit b = false → (remove_scheduled_event s e).testBit b = s.testBit b) := by
  refine ⟨?_, ?_, ?_, ?_, ?_⟩
  · intro h
    simp [get_scheduled_events, add_scheduled_event, Nat.testBit_or, h]
  · intro h
    have hb : b < 32 := by
      by_contra hb
      have hge : 2 ^ b ≤ e := Nat.testBit_implies_ge h
      have : (2 : ℕ) ^ 32 ≤ 2 ^ b := Nat.pow_le_pow_right (by norm_num) (by omega)
      omega
    simp [get_scheduled_events, remove_scheduled_event,
      Nat.testBit_and, Nat.testBit_xor, WORD_MASK_testBit, h, hb]
  · simp [add_scheduled_event, Nat.or_assoc, Nat.or_self]
  · intro h
    simp [add_scheduled_event, Nat.testBit_or, h]
  · intro h
    by_cases hb : b < 32
    · simp [remove_scheduled_event, Nat.testBit_and,
        Nat.testBit_xor, WORD_MASK_testBit, h, hb]
    · have hsb : s.testBit b = false := by
        refine Nat.testBit_lt_two_pow (lt_of_lt_of_le hs ?_)
        exact Nat.pow_le_pow_right (by norm_num) (by omega)
      simp [remove_scheduled_event, Nat.testBit_and,
        Nat.testBit_xor, WORD_MASK_testBit, h, hb, hsb]

/-- Witness for C9 at `s = 5`, `e = 3`, `b = 1`. -/
theorem scheduled_event_bit_laws_witness :
    ((3 : ℕ).testBit 1 = true →
      (get_scheduled_events (add_scheduled_event 5 3)).testBit 1 = true) ∧
    ((3 : ℕ).testBit 1 = true →
      (get_scheduled_events (remove_scheduled_event 5 3)).testBit 1 = false) ∧
    (add_scheduled_event (add_scheduled_event 5 3) 3 = add_scheduled_event 5 3) ∧
    ((3 : ℕ).testBit 1 = false → (add_scheduled_event 5 3).testBit 1 = (5 : ℕ).testBit 1) ∧
    ((3 : ℕ).testBit 1 = false →
      (remove_scheduled_event 5 3).testBit 1 = (5 : ℕ).testBit 1) :=
  scheduled_event_bit_laws 5 3 1 (by norm_num) (by norm_num)

/-! ## Outbound ring buffer (Lab 7, ble.c)

`static BLE_CIRCULAR_BUF ble_cbuf` holds the byte array `cbuf`, the two
cursors, and the constant fields `size = CSIZE` and `size_mask = CSIZE - 1`
set once by `ble_circ_init`; the constants are folded into `CSIZE` here.
Cursor updates use `& size_mask`, which for the power-of-two `CSIZE` is
exactly `% CSIZE`. -/

/-- The ring-buffer capacity. Modelled from the spec: `ble.h` is not in the
repository subset; the spec fixes the capacity at 64 ("e.g., capacity 64",
and the wraparound scenario straddling index 63 to 0), a power of two as the
masking in `update_circ_wrtindex` requires. -/
def CSIZE : ℕ := 64

/-- `BLE_CIRCULAR_BUF` (ble.h): backing array and the two modulo-masked
cursors; the constant `size`/`size_mask` fields are folded into `CSIZE`. -/
structure BLE_CIRCULAR_BUF where
  cbuf : ℕ → ℕ
  read_ptr : ℕ
  write_ptr : ℕ

/-- `update_circ_wrtindex` (ble.c line 636):
`write_ptr = (write_ptr + update_by) & size_mask`. -/
def update_circ_wrtindex (s : BLE_CIRCULAR_BUF) (update_by : ℕ) : BLE_CIRCULAR_BUF :=
  { s with write_ptr := (s.write_ptr + update_by) % CSIZE }

/-- `update_circ_readindex` (ble.c line 661):
`read_ptr = (read_ptr + update_by) & size_mask`. -/
def update_circ_readindex (s : BLE_CIRCULAR_BUF) (update_by : ℕ) : BLE_CIRCULAR_BUF :=
  { s with read_ptr := (s.read_ptr + update_by) % CSIZE }

/-- `ble_circ_space` (ble.c line 603): `size - abs(write_ptr - read_ptr)` when
`write_ptr >= read_ptr` (the difference is non-negative there, so `abs` is the
plain difference), else `read_ptr - write_ptr`. -/
def ble_circ_space (s : BLE_CIRCULAR_BUF) : ℕ :=
  if s.read_ptr ≤ s.write_ptr then CSIZE - (s.write_ptr - s.read_ptr)
  else s.read_ptr - s.write_ptr

/-- The `for` loop of `ble_circ_push`:
`cbuf[(write_ptr + i + 1) & size_mask] = string[i]` for `i` from `i0` on. -/
def writeStr (cbuf : ℕ → ℕ) (wp : ℕ) : List ℕ → ℕ → (ℕ → ℕ)
  | [], _ => cbuf
  | ch :: rest, i => writeStr (setFn cbuf ((wp + i + 1) % CSIZE) ch) wp rest (i + 1)

/-- `ble_circ_push` (ble.c line 578). `string` is the pushed payload (the bytes
of the C string, so `string_len = strlen + 1`); stores the length byte at the
write cursor, then the payload bytes at the masked following slots, then
advances the write cursor. `none` models `EFM_ASSERT(false)` on the failed
space check. -/
def ble_circ_push (s : BLE_CIRCULAR_BUF) (string : List ℕ) : Option BLE_CIRCULAR_BUF :=
  let string_len := string.length + 1
  if ble_circ_space s < string_len then none
  else
    let cbuf1 := setFn s.cbuf s.write_ptr string_len
    let cbuf2 := writeStr cbuf1 s.write_ptr string 0
    some (update_circ_wrtindex { s with cbuf := cbuf2 } string_len)

/-- `ble_circ_pop` (ble.c line 535). `leuart_tx_busy` is the transmitter-busy
test at entry. Returns the C function's boolean, the new buffer state, and the
extracted payload `print_str` (`none` when nothing was delivered); the `test`
argument only chooses whether `print_str` goes to `test_struct.result_str` or
to `leuart_start`, so it is not part of the model's result. -/
def ble_circ_pop (leuart_tx_busy : Bool) (s : BLE_CIRCULAR_BUF) :
    Bool × BLE_CIRCULAR_BUF × Option (List ℕ) :=
  if leuart_tx_busy then (true, s, none)
  else if s.read_ptr = s.write_ptr then (true, s, none)
  else
    let str_length := s.cbuf s.read_ptr
    let print_str :=
      (List.range (str_length - 1)).map fun i => s.cbuf ((s.read_ptr + i + 1) % CSIZE)
    (false, update_circ_readindex s str_length, some print_str)

/-- Slots not written by the `ble_circ_push` loop keep their old contents. -/
theorem writeStr_ne (l : List ℕ) :
    ∀ (cbuf : ℕ → ℕ) (wp i0 m : ℕ),
      (∀ k, k < l.length → m ≠ (wp + i0 + k + 1) % CSIZE) →
      writeStr cbuf wp l i0 m = cbuf m := by
  induction l with
  | nil => intro cbuf wp i0 m _; rfl
  | cons ch rest ih =>
    intro cbuf wp i0 m hm
    show writeStr (setFn cbuf ((wp + i0 + 1) % CSIZE) ch) wp rest (i0 + 1) m = cbuf m
    rw [ih _ wp (i0 + 1) m ?side]
    case side =>
      intro k hk
      have := hm (k + 1) (by simpa using Nat.succ_lt_succ hk)
      have harith : wp + i0 + (k + 1) + 1 = wp + (i0 + 1) + k + 1 := by omega
      rwa [harith] at this
    have hm0 := hm 0 (by simp)
    simp only [Nat.add_zero] at hm0
    simp [setFn, hm0]

/-- Reading back a slot written by the `ble_circ_push` loop yields the byte the
loop stored there, provided the loop touches fewer than `CSIZE` distinct slots. -/
theorem writeStr_read (l : List ℕ) :
    ∀ (cbuf : ℕ → ℕ) (wp i0 j : ℕ) (hj : j < l.length),
      i0 + l.length ≤ CSIZE - 1 →
      writeStr cbuf wp l i0 ((wp + i0 + j + 1) % CSIZE) = l[j] := by
  induction l with
  | nil => intro _ _ _ j hj _; exact absurd hj (by simp)
  | cons ch rest ih =>
    intro cbuf wp i0 j hj hbound
    cases j with
    | zero =>
      show writeStr (setFn cbuf ((wp + i0 + 1) % CSIZE) ch) wp rest (i0 + 1)
          ((wp + i0 + 0 + 1) % CSIZE) = ch
      rw [writeStr_ne rest _ wp (i0 + 1) _ ?fresh]
      case fresh =>
        intro k hk heq
        have hr : rest.length + 1 = (ch :: rest).length := by simp
        have h1 : i0 + 1 ≤ CSIZE - 1 := by simp at hbound; omega
        have h2 : i0 + k + 2 ≤ CSIZE - 1 := by simp at hbound; omega
        simp only [CSIZE] at heq h1 h2
        omega
      simp [setFn]
    | succ jj =>
      show writeStr (setFn cbuf ((wp + i0 + 1) % CSIZE) ch) wp rest (i0 + 1)
          ((wp + i0 + (jj + 1) + 1) % CSIZE) = (ch :: rest)[jj + 1]
      have harith : wp + i0 + (jj + 1) + 1 = wp + (i0 + 1) + jj + 1 := by omega
      rw [harith]
      have hjj : jj < rest.length := by simpa using hj
      rw [ih _ wp (i0 + 1) jj hjj (by simp at hbound; omega)]
      simp

/-- Claim C2 (amended: encoded size strictly below the capacity): for every
buffer content, every common cursor position `p`, and every payload of length
`L ≥ 1` with `L + 1 < CSIZE`, pushing and then popping with the transmitter
idle succeeds, hands back exactly the payload, and restores `ble_circ_space`
to its pre-push value. At `L + 1 = CSIZE` (still fitting the reported space)
the write cursor wraps onto the read cursor and the pop delivers nothing. -/
theorem ble_push_pop_roundtrip (f : ℕ → ℕ) (p : ℕ) (payload : List ℕ)
    (hp : p < CSIZE) (hL : 1 ≤ payload.length) (hfit : payload.length + 1 < CSIZE) :
    ∃ s1, ble_circ_push ⟨f, p, p⟩ payload = some s1 ∧
      (ble_circ_pop false s1).1 = false ∧
      (ble_circ_pop false s1).2.2 = some payload ∧
      ble_circ_space (ble_circ_pop false s1).2.1 = ble_circ_space ⟨f, p, p⟩ := by
  have hspace0 : ble_circ_space ⟨f, p, p⟩ = CSIZE := by
    simp [ble_circ_space]
  have hp64 : p < 64 := by simpa [CSIZE] using hp
  have hfit64 : payload.length + 1 < 64 := by simpa [CSIZE] using hfit
  set L := payload.length with hLdef
  set g := writeStr (setFn f p (L + 1)) p payload 0 with hg
  have hpush : ble_circ_push ⟨f, p, p⟩ payload =
      some ⟨g, p, (p + (L + 1)) % CSIZE⟩ := by
    rw [ble_circ_push]
    rw [if_neg (by rw [hspace0]; omega)]
    rfl
  have hne : ¬ ((p : ℕ) = (p + (L + 1)) % CSIZE) := by
    intro heq
    simp only [CSIZE] at heq
    omega
  have hpre : g p = L + 1 := by
    rw [hg, writeStr_ne payload _ p 0 p ?pne]
    case pne =>
      intro k hk heq
      simp only [CSIZE] at heq
      omega
    simp [setFn]
  have hbytes : (List.range ((L + 1) - 1)).map (fun i => g ((p + i + 1) % CSIZE)) = payload := by
    apply List.ext_getElem
    · simp
    · intro i h1 h2
      simp only [List.getElem_map, List.getElem_range]
      have harith : p + i + 1 = p + 0 + i + 1 := by omega
      rw [harith, hg, writeStr_read payload _ p 0 i (by simpa using h2) (by omega)]
  have hpop : ble_circ_pop false ⟨g, p, (p + (L + 1)) % CSIZE⟩ =
      (false, update_circ_readindex ⟨g, p, (p + (L + 1)) % CSIZE⟩ (L + 1),
        some payload) := by
    rw [ble_circ_pop, if_neg (by simp)]
    simp only
    rw [if_neg hne]
    simp only [hpre, hbytes]
  refine ⟨_, hpush, ?_, ?_, ?_⟩
  · rw [hpop]
  · rw [hpop]
  · rw [hpop, hspace0]
    simp [update_circ_readindex, ble_circ_space]

/-- Witness for the amended C2 at cursors 62 (the pushed bytes straddle the
end of the backing array) and payload `[10, 20, 30]`. -/
theorem ble_push_pop_roundtrip_witness :
    ∃ s1, ble_circ_push ⟨fun _ => 0, 62, 62⟩ [10, 20, 30] = some s1 ∧
      (ble_circ_pop false s1).1 = false ∧
      (ble_circ_pop false s1).2.2 = some [10, 20, 30] ∧
      ble_circ_space (ble_circ_pop false s1).2.1 =
        ble_circ_space ⟨fun _ => 0, 62, 62⟩ :=
  ble_push_pop_roundtrip (fun _ => 0) 62 [10, 20, 30] (by norm_num [CSIZE])
    (by norm_num) (by norm_num [CSIZE])

/-- Claim C2 counterexample: a payload of length 63 has encoded size 64, which
fits the reported space (`ble_circ_space = CSIZE = 64`) exactly; the push is
accepted, but the write cursor wraps onto the read cursor, so the immediate
pop with the transmitter idle reports an empty buffer and delivers nothing
instead of the 63 pushed bytes. -/
theorem ble_push_pop_roundtrip_fails_at_capacity :
    ble_circ_space ⟨fun _ => 0, 0, 0⟩ = CSIZE ∧
    (List.replicate 63 7).length + 1 = CSIZE ∧
    (ble_circ_push ⟨fun _ => 0, 0, 0⟩ (List.replicate 63 7)).isSome = true ∧
    (ble_circ_pop false
      ((ble_circ_push ⟨fun _ => 0, 0, 0⟩ (List.replicate 63 7)).getD
        ⟨fun _ => 0, 0, 0⟩)).1 = true ∧
    (ble_circ_pop false
      ((ble_circ_push ⟨fun _ => 0, 0, 0⟩ (List.replicate 63 7)).getD
        ⟨fun _ => 0, 0, 0⟩)).2.2 = none := by
  refine ⟨by simp [ble_circ_space], by simp [CSIZE], ?_, ?_, ?_⟩ <;> rfl

/-- Fold `ble_circ_push` over a sequence of messages; `none` as soon as one
push hits the fatal space assertion. -/
def pushAll (s : BLE_CIRCULAR_BUF) : List (List ℕ) → Option BLE_CIRCULAR_BUF
  | [] => some s
  | msg :: msgs => (ble_circ_push s msg).bind fun s' => pushAll s' msgs

/-- Total encoded size of a message sequence: payload length plus one length
byte per message. -/
def totalEncoded (msgs : List (List ℕ)) : ℕ :=
  (msgs.map fun m => m.length + 1).sum

/-- Running invariant of a pop-free push sequence: with the read cursor parked
at `p` and `t` bytes of the capacity already consumed, a sequence whose encoded
size still fits advances the write cursor by exactly its encoded size. -/
theorem pushAll_from_offset (msgs : List (List ℕ)) :
    ∀ (g : ℕ → ℕ) (p t : ℕ), p < CSIZE → t + totalEncoded msgs ≤ CSIZE →
      ∃ g', pushAll ⟨g, p, (p + t) % CSIZE⟩ msgs =
        some ⟨g', p, (p + (t + totalEncoded msgs)) % CSIZE⟩ := by
  induction msgs with
  | nil =>
    intro g p t _ _
    exact ⟨g, by simp [pushAll, totalEncoded]⟩
  | cons m msgs ih =>
    intro g p t hp hcap
    have henc : totalEncoded (m :: msgs) = (m.length + 1) + totalEncoded msgs := by
      simp [totalEncoded]
    have ht : t + (m.length + 1) ≤ CSIZE := by rw [henc] at hcap; omega
    have hcap64 : t + (m.length + 1) ≤ 64 := by simpa [CSIZE] using ht
    have hp64 : p < 64 := by simpa [CSIZE] using hp
    have hspace : ¬ (ble_circ_space ⟨g, p, (p + t) % CSIZE⟩ < m.length + 1) := by
      simp only [ble_circ_space, CSIZE]
      split <;> omega
    have hpush : ble_circ_push ⟨g, p, (p + t) % CSIZE⟩ m =
        some ⟨writeStr (setFn g ((p + t) % CSIZE) (m.length + 1)) ((p + t) % CSIZE) m 0,
          p, (p + (t + (m.length + 1))) % CSIZE⟩ := by
      rw [ble_circ_push, if_neg hspace]
      simp only [update_circ_wrtindex]
      have harith : ((p + t) % CSIZE + (m.length + 1)) % CSIZE =
          (p + (t + (m.length + 1))) % CSIZE := by
        rw [Nat.mod_add_mod]
        congr 1
        omega
      rw [harith]
    obtain ⟨g', hg'⟩ :=
      ih (writeStr (setFn g ((p + t) % CSIZE) (m.length + 1)) ((p + t) % CSIZE) m 0)
        p (t + (m.length + 1)) hp (by rw [henc] at hcap; omega)
    refine ⟨g', ?_⟩
    rw [pushAll, hpush]
    simp only [Option.some_bind]
    rw [hg']
    have harith2 : t + (m.length + 1) + totalEncoded msgs =
        t + totalEncoded (m :: msgs) := by rw [henc]; omega
    rw [harith2]

/-- Claim C5 (amended): starting from the empty buffer, every push sequence
whose total encoded size stays within `CSIZE` (reaching it exactly is allowed)
succeeds without the fatal assertion, and a push taking the running total from
strictly below `CSIZE` to `CSIZE + 1` hits `EFM_ASSERT(false)`. (When the
total has already reached exactly `CSIZE` the cursors coincide, the buffer is
indistinguishable from empty, and a further 1-byte-encoded push is accepted —
see the counterexample.) -/
theorem ble_push_capacity (f : ℕ → ℕ) (msgs : List (List ℕ)) (m : List ℕ)
    (hto : totalEncoded msgs ≤ CSIZE) :
    ∃ s', pushAll ⟨f, 0, 0⟩ msgs = some s' ∧
      (totalEncoded msgs < CSIZE → totalEncoded msgs + (m.length + 1) = CSIZE + 1 →
        ble_circ_push s' m = none) := by
  have h0 := pushAll_from_offset msgs f 0 0 (by norm_num [CSIZE]) (by omega)
  rw [show ((0 : ℕ) + 0) % CSIZE = 0 by norm_num] at h0
  obtain ⟨g', hg'⟩ := h0
  refine ⟨_, hg', ?_⟩
  intro hlt heq
  have htot64 : totalEncoded msgs < 64 := by simpa [CSIZE] using hlt
  have hw : ((0 : ℕ) + (0 + totalEncoded msgs)) % CSIZE = totalEncoded msgs := by
    simp only [CSIZE]
    omega
  have hsp : ble_circ_space ⟨g', 0, ((0 : ℕ) + (0 + totalEncoded msgs)) % CSIZE⟩ <
      m.length + 1 := by
    simp only [ble_circ_space, hw]
    rw [if_pos (Nat.zero_le _)]
    simp only [CSIZE] at heq ⊢
    omega
  simp only [ble_circ_push]
  rw [if_pos hsp]

/-- Witness for the amended C5: two pushes totalling 3 encoded bytes succeed,
and the follow-up push of a 61-byte payload (encoded 62, total 65 = CSIZE + 1)
is the fatal overflow. -/
theorem ble_push_capacity_witness :
    ∃ s', pushAll ⟨fun _ => 0, 0, 0⟩ [[1, 2]] = some s' ∧
      (totalEncoded [[1, 2]] < CSIZE →
        totalEncoded [[1, 2]] + ((List.replicate 61 5).length + 1) = CSIZE + 1 →
        ble_circ_push s' (List.replicate 61 5) = none) :=
  ble_push_capacity (fun _ => 0) [[1, 2]] (List.replicate 61 5)
    (by norm_num [totalEncoded, CSIZE])

/-- Claim C5 counterexample: one message of encoded size exactly `CSIZE`
(payload length 63) succeeds and wraps the write cursor onto the read cursor;
the next push — the empty message, encoded size 1, running total
`CSIZE + 1` — is then accepted instead of triggering the fatal assertion,
because the wrapped buffer reports the full capacity as free. -/
theorem ble_push_overflow_accepted :
    totalEncoded [List.replicate 63 7] = CSIZE ∧
    totalEncoded [List.replicate 63 7] + (([] : List ℕ).length + 1) = CSIZE + 1 ∧
    (pushAll ⟨fun _ => 0, 0, 0⟩ [List.replicate 63 7]).isSome = true ∧
    (ble_circ_push
      ((pushAll ⟨fun _ => 0, 0, 0⟩ [List.replicate 63 7]).getD ⟨fun _ => 0, 0, 0⟩)
      []).isSome = true := by
  refine ⟨by simp [totalEncoded, CSIZE], by simp [totalEncoded, CSIZE], ?_, ?_⟩ <;> rfl

/-- Claim C10: pushing messages whose encoded sizes sum to exactly `CSIZE` into
the empty buffer succeeds and wraps the write cursor back onto the read
cursor; from that state `ble_circ_space` reports the full capacity free and
`ble_circ_pop` (busy transmitter or not) returns `true` delivering nothing, so
the queued bytes are unreachable. -/
theorem ble_full_wrap_loses_messages (f : ℕ → ℕ) (msgs : List (List ℕ)) (tb : Bool)
    (h : totalEncoded msgs = CSIZE) :
    ∃ s', pushAll ⟨f, 0, 0⟩ msgs = some s' ∧ s'.write_ptr = s'.read_ptr ∧
      ble_circ_space s' = CSIZE ∧ (ble_circ_pop tb s').1 = true ∧
      (ble_circ_pop tb s').2.2 = none := by
  have h0 := pushAll_from_offset msgs f 0 0 (by norm_num [CSIZE]) (by omega)
  rw [show ((0 : ℕ) + 0) % CSIZE = 0 by norm_num] at h0
  obtain ⟨g', hg'⟩ := h0
  have hw : ((0 : ℕ) + (0 + totalEncoded msgs)) % CSIZE = 0 := by
    rw [h]; simp [CSIZE]
  rw [hw] at hg'
  refine ⟨_, hg', rfl, by simp [ble_circ_space], ?_, ?_⟩ <;>
    cases tb <;> simp [ble_circ_pop]

/-- Witness for C10: one 63-byte payload (encoded 64 = CSIZE). -/
theorem ble_full_wrap_loses_messages_witness :
    ∃ s', pushAll ⟨fun _ => 0, 0, 0⟩ [List.replicate 63 7] = some s' ∧
      s'.write_ptr = s'.read_ptr ∧ ble_circ_space s' = CSIZE ∧
      (ble_circ_pop false s').1 = true ∧ (ble_circ_pop false s').2.2 = none :=
  ble_full_wrap_loses_messages (fun _ => 0) [List.replicate 63 7] false
    (by simp [totalEncoded, CSIZE])

/-! ## Bus transaction state machine (Lab 4, i2c.c)

`static I2C_STATE_MACHINE i2c_peripheral_state` plus the module-level callback
id `scheduled_read_cb`; the machine's observable effects on the sleep arbiter
(EM2 hold) and the scheduler are tracked as counters and an event list.
`EFM_ASSERT(false)` branches are modelled as `none`. -/

/-- `DEFINED_STATES` (i2c.h): note there is no dedicated idle member; the
machine marks itself inactive through the `sm_busy` flag. -/
inductive DEFINED_STATES where
  | start_comm
  | send_cmd
  | read_request
  | read_ms_byte
  | read_ls_byte
  | stop_comm
deriving DecidableEq, Repr

/-- `I2C_STATE_MACHINE` (i2c.h); `read_value` models the value behind the
`uint32_t *read_value` destination pointer. -/
structure I2C_STATE_MACHINE where
  state : DEFINED_STATES
  device_address : ℕ
  command : ℕ
  sm_busy : Bool
  read : Bool
  read_value : ℕ
deriving DecidableEq, Repr

/-- The i2c driver's module state and its observable effects: the number of
`sleep_block_mode(EM2)` and `sleep_unblock_mode(EM2)` calls made and the
events handed to `add_scheduled_event`, in order. -/
structure I2C_MODEL where
  sm : I2C_STATE_MACHINE
  scheduled_read_cb : ℕ
  sleep_blocks : ℕ
  sleep_unblocks : ℕ
  posted_events : List ℕ
deriving DecidableEq, Repr

/-- `i2c_start` (i2c.c line 276): asserts that the hardware bus state is idle
(`EFM_ASSERT((STATE & _I2C_STATE_STATE_MASK) == I2C_STATE_STATE_IDLE)`,
modelled by the `hw_idle` flag; `none` is the failed assertion), acquires the
EM2 sleep hold, fills the transaction record, sets the state to `start_comm`
and issues START plus the address byte. The software machine's own state and
`sm_busy` flag are not examined (the `sm_busy` store is commented out in the
source). -/
def i2c_start (hw_idle : Bool) (mdl : I2C_MODEL)
    (slave_address command callback : ℕ) : Option I2C_MODEL :=
  if hw_idle = false then none
  else some { mdl with
    sm := { mdl.sm with
      device_address := slave_address
      read := false
      command := command
      state := .start_comm }
    scheduled_read_cb := callback
    sleep_blocks := mdl.sleep_blocks + 1 }

/-- `i2c_start_interrupt` (i2c.c line 309): every state but `stop_comm` is a
bare `break`; `stop_comm` is `EFM_ASSERT(false)`. -/
def i2c_start_interrupt (mdl : I2C_MODEL) : Option I2C_MODEL :=
  match mdl.sm.state with
  | .start_comm => some mdl
  | .send_cmd => some mdl
  | .read_request => some mdl
  | .read_ms_byte => some mdl
  | .read_ls_byte => some mdl
  | .stop_comm => none

/-- `i2c_ack_interrupt` (i2c.c line 343). In `start_comm` it marks the machine
busy, clears TX and sends the command byte; in `send_cmd` it issues the
repeated start with the read address; in `read_request` it clears TX and
advances; `read_ms_byte` and `read_ls_byte` are bare `break`s; `stop_comm`
is `EFM_ASSERT(false)`. -/
def i2c_ack_interrupt (mdl : I2C_MODEL) : Option I2C_MODEL :=
  match mdl.sm.state with
  | .start_comm =>
    some { mdl with sm := { mdl.sm with sm_busy := true, read := false, state := .send_cmd } }
  | .send_cmd =>
    some { mdl with sm := { mdl.sm with read := true, state := .read_request } }
  | .read_request =>
    some { mdl with sm := { mdl.sm with state := .read_ms_byte } }
  | .read_ms_byte => some mdl
  | .read_ls_byte => some mdl
  | .stop_comm => none

/-- `i2c_nack_interrupt` (i2c.c line 390). `read_request` retries the repeated
start and stays in `read_request`; `send_cmd` is a bare `break` (its
`EFM_ASSERT(false)` is commented out in the source); every other state is
`EFM_ASSERT(false)`. -/
def i2c_nack_interrupt (mdl : I2C_MODEL) : Option I2C_MODEL :=
  match mdl.sm.state with
  | .start_comm => none
  | .send_cmd => some mdl
  | .read_request =>
    some { mdl with sm := { mdl.sm with read := true, state := .read_request } }
  | .read_ms_byte => none
  | .read_ls_byte => none
  | .stop_comm => none

/-- `i2c_mstop_interrupt` (i2c.c line 433). Only `stop_comm` is legal: clear
`sm_busy`, release the EM2 hold, post `scheduled_read_cb`; every other state
is `EFM_ASSERT(false)`. The `state` field itself is left at `stop_comm`. -/
def i2c_mstop_interrupt (mdl : I2C_MODEL) : Option I2C_MODEL :=
  match mdl.sm.state with
  | .start_comm => none
  | .send_cmd => none
  | .read_request => none
  | .read_ms_byte => none
  | .read_ls_byte => none
  | .stop_comm =>
    some { mdl with
      sm := { mdl.sm with sm_busy := false }
      sleep_unblocks := mdl.sleep_unblocks + 1
      posted_events := mdl.posted_events ++ [mdl.scheduled_read_cb] }

/-- `i2c_rxdatav_interrupt` (i2c.c line 474), with `rxdata` the byte read from
`RXDATA`. `read_ms_byte` stores `rxdata << 8` and ACKs; `read_ls_byte` ors in
`rxdata`, NACKs, issues STOP and advances to `stop_comm`; every other state is
`EFM_ASSERT(false)`. -/
def i2c_rxdatav_interrupt (rxdata : ℕ) (mdl : I2C_MODEL) : Option I2C_MODEL :=
  match mdl.sm.state with
  | .start_comm => none
  | .send_cmd => none
  | .read_request => none
  | .read_ms_byte =>
    some { mdl with sm := { mdl.sm with read_value := rxdata <<< 8, state := .read_ls_byte } }
  | .read_ls_byte =>
    some { mdl with
      sm := { mdl.sm with read_value := mdl.sm.read_value ||| rxdata, state := .stop_comm } }
  | .stop_comm => none

/-- The claim C1 interrupt delivery sequence for one read transaction:
start, then ACK in `start_comm`, ACK in `send_cmd`, ACK in `read_request`,
RXDATAV in `read_ms_byte`, RXDATAV in `read_ls_byte`, MSTOP in `stop_comm`. -/
def i2c_read_run (mdl : I2C_MODEL) (slave_address command callback rx_hi rx_lo : ℕ) :
    Option I2C_MODEL :=
  (i2c_start true mdl slave_address command callback).bind fun s1 =>
  (i2c_ack_interrupt s1).bind fun s2 =>
  (i2c_ack_interrupt s2).bind fun s3 =>
  (i2c_ack_interrupt s3).bind fun s4 =>
  (i2c_rxdatav_interrupt rx_hi s4).bind fun s5 =>
  (i2c_rxdatav_interrupt rx_lo s5).bind fun s6 =>
  i2c_mstop_interrupt s6

/-- Claim C1: starting a read transaction from idle (`sm_busy = false`, the
machine's only idle marker since `DEFINED_STATES` has no idle member) and
delivering ACK, ACK, ACK, RXDATAV, RXDATAV, MSTOP completes without any fatal
assertion, ends with the machine idle again (`sm_busy = false`), acquires and
releases the EM2 sleep hold exactly once each, and posts the completion event
exactly once. -/
theorem i2c_read_run_completes (mdl : I2C_MODEL)
    (slave_address command callback rx_hi rx_lo : ℕ)
    (hidle : mdl.sm.sm_busy = false) :
    ∃ mf, i2c_read_run mdl slave_address command callback rx_hi rx_lo = some mf ∧
      mf.sm.sm_busy = false ∧
      mf.sleep_blocks = mdl.sleep_blocks + 1 ∧
      mf.sleep_unblocks = mdl.sleep_unblocks + 1 ∧
      mf.posted_events = mdl.posted_events ++ [callback] :=
  ⟨_, rfl, rfl, rfl, rfl, rfl⟩

/-- Witness for C1 at a concrete idle model. -/
theorem i2c_read_run_completes_witness :
    ∃ mf, i2c_read_run ⟨⟨.start_comm, 0, 0, false, false, 0⟩, 0, 0, 0, []⟩
        64 243 9 1 2 = some mf ∧
      mf.sm.sm_busy = false ∧
      mf.sleep_blocks = 0 + 1 ∧
      mf.sleep_unblocks = 0 + 1 ∧
      mf.posted_events = [] ++ [9] :=
  i2c_read_run_completes ⟨⟨.start_comm, 0, 0, false, false, 0⟩, 0, 0, 0, []⟩
    64 243 9 1 2 rfl

/-- Claim C6 counterexample: with the hardware bus idle but the software state
machine mid-transaction (`sm_busy = true`, state `send_cmd`), `i2c_start`
passes its only assertion and begins a new transaction (state reset to
`start_comm`, sleep hold acquired) instead of failing. -/
theorem i2c_start_ignores_software_state :
    i2c_start true ⟨⟨.send_cmd, 10, 20, true, false, 0⟩, 5, 1, 0, []⟩ 64 243 9 =
      some ⟨⟨.start_comm, 64, 243, true, false, 0⟩, 9, 2, 0, []⟩ := by
  decide

/-- Claim C6 (amended): `i2c_start` fails its precondition assertion exactly
when the hardware bus state is non-idle; the software machine's state is not
checked, so a transaction is begun whenever the hardware alone is idle. -/
theorem i2c_start_checks_hardware_only (hw_idle : Bool) (mdl : I2C_MODEL)
    (slave_address command callback : ℕ) :
    (i2c_start hw_idle mdl slave_address command callback = none ↔ hw_idle = false) := by
  cases hw_idle <;> simp [i2c_start]

/-! ## Transmit state machine (Lab 5, leuart.c)

`static LEUART_SM sm` plus the TXBL/TXC interrupt-enable bits of `IEN`, the
bytes written to `TXDATA` (in order), and the observable sleep-arbiter and
scheduler effects. `EFM_ASSERT(false)` branches are modelled as `none`. -/

/-- `LEUART_STATES` (leuart.h, its members as used by leuart.c's switches). -/
inductive LEUART_STATES where
  | idle
  | send_data
  | active_trans
  | end_comm
deriving DecidableEq, Repr

/-- `LEUART_SM` (leuart.c line 36); `output` models the `char output[80]`
buffer contents. -/
structure LEUART_SM where
  sm_busy : Bool
  str_length : ℕ
  state : LEUART_STATES
  output : List ℕ
  count : ℕ
deriving DecidableEq, Repr

/-- The leuart driver's module state and observable effects. -/
structure LEUART_MODEL where
  sm : LEUART_SM
  txbl_en : Bool
  txc_en : Bool
  txdata : List ℕ
  tx_done_evt : ℕ
  sleep_blocks : ℕ
  sleep_unblocks : ℕ
  posted_events : List ℕ
deriving DecidableEq, Repr

/-- `leuart_start` (leuart.c line 184): after the hardware TXIDLE wait it
acquires the sleep hold, resets the record (`state = idle`, `count = 0`,
copies the string, `sm_busy = true`) and assigns `IEN = LEUART_IEN_TXBL`
(enabling TXBL, disabling everything else). -/
def leuart_start (mdl : LEUART_MODEL) (string : List ℕ) (string_len : ℕ) : LEUART_MODEL :=
  { mdl with
    sm := { sm_busy := true, str_length := string_len, state := .idle,
            output := string, count := 0 }
    txbl_en := true
    txc_en := false
    sleep_blocks := mdl.sleep_blocks + 1 }

/-- `leuart0_txbl_interrupt` (leuart.c line 354). In `idle`: send
`output[count]`, advance the cursor, go to `send_data`. In `send_data`: if
`count == str_length - 1` send the byte, disable TXBL, enable TXC and go to
`active_trans`, else send the byte and stay. `active_trans` and `end_comm`
are `EFM_ASSERT(false)`. -/
def leuart0_txbl_interrupt (mdl : LEUART_MODEL) : Option LEUART_MODEL :=
  match mdl.sm.state with
  | .idle =>
    some { mdl with
      txdata := mdl.txdata ++ [mdl.sm.output.getD mdl.sm.count 0]
      sm := { mdl.sm with count := mdl.sm.count + 1, state := .send_data } }
  | .send_data =>
    if mdl.sm.count = mdl.sm.str_length - 1 then
      some { mdl with
        txdata := mdl.txdata ++ [mdl.sm.output.getD mdl.sm.count 0]
        sm := { mdl.sm with count := mdl.sm.count + 1, state := .active_trans }
        txbl_en := false
        txc_en := true }
    else
      some { mdl with
        txdata := mdl.txdata ++ [mdl.sm.output.getD mdl.sm.count 0]
        sm := { mdl.sm with count := mdl.sm.count + 1 } }
  | .active_trans => none
  | .end_comm => none

/-- `leuart0_txc_interrupt` (leuart.c line 397). `active_trans`: advance to
`end_comm` and re-pend TXC through `IFS` (so TXC is delivered once more).
`end_comm`: disable TXC, clear `sm_busy`, release the sleep hold, post
`tx_done_evt`. `idle` and `send_data` are `EFM_ASSERT(false)`. -/
def leuart0_txc_interrupt (mdl : LEUART_MODEL) : Option LEUART_MODEL :=
  match mdl.sm.state with
  | .idle => none
  | .send_data => none
  | .active_trans => some { mdl with sm := { mdl.sm with state := .end_comm } }
  | .end_comm =>
    some { mdl with
      txc_en := false
      sm := { mdl.sm with sm_busy := false }
      sleep_unblocks := mdl.sleep_unblocks + 1
      posted_events := mdl.posted_events ++ [mdl.tx_done_evt] }

/-- Deliver `n` TXBL interrupts in a row. -/
def iterate_txbl : ℕ → LEUART_MODEL → Option LEUART_MODEL
  | 0, mdl => some mdl
  | n + 1, mdl => (leuart0_txbl_interrupt mdl).bind (iterate_txbl n)

/-- Reduction of a TXBL delivery in the `idle` state. -/
theorem leuart_txbl_step_idle (mdl : LEUART_MODEL) (hst : mdl.sm.state = .idle) :
    leuart0_txbl_interrupt mdl =
      some { mdl with
        txdata := mdl.txdata ++ [mdl.sm.output.getD mdl.sm.count 0]
        sm := { mdl.sm with count := mdl.sm.count + 1, state := .send_data } } := by
  unfold leuart0_txbl_interrupt
  rw [hst]

/-- Reduction of a TXBL delivery in the `send_data` state. -/
theorem leuart_txbl_step_send_data (mdl : LEUART_MODEL) (hst : mdl.sm.state = .send_data) :
    leuart0_txbl_interrupt mdl =
      if mdl.sm.count = mdl.sm.str_length - 1 then
        some { mdl with
          txdata := mdl.txdata ++ [mdl.sm.output.getD mdl.sm.count 0]
          sm := { mdl.sm with count := mdl.sm.count + 1, state := .active_trans }
          txbl_en := false
          txc_en := true }
      else
        some { mdl with
          txdata := mdl.txdata ++ [mdl.sm.output.getD mdl.sm.count 0]
          sm := { mdl.sm with count := mdl.sm.count + 1 } } := by
  unfold leuart0_txbl_interrupt
  rw [hst]

/-- Reduction of a TXC delivery in the `active_trans` state. -/
theorem leuart_txc_step_active (mdl : LEUART_MODEL) (hst : mdl.sm.state = .active_trans) :
    leuart0_txc_interrupt mdl =
      some { mdl with sm := { mdl.sm with state := .end_comm } } := by
  unfold leuart0_txc_interrupt
  rw [hst]

/-- The sending loop: from `send_data` with `count = k ≥ 1` and `m ≥ 1` bytes
still to go (`k + m = str_length`), delivering `m` TXBL interrupts sends the
remaining bytes in order, disables TXBL, enables TXC and parks the machine in
`active_trans`, leaving the other module state untouched. -/
theorem iterate_txbl_sending (string : List ℕ) :
    ∀ (m k : ℕ) (mdl : LEUART_MODEL),
      mdl.sm.state = .send_data → mdl.sm.str_length = string.length →
      mdl.sm.output = string → mdl.sm.count = k → 1 ≤ k →
      k + m = string.length → 1 ≤ m →
      ∃ mm, iterate_txbl m mdl = some mm ∧
        mm.txdata = mdl.txdata ++ string.drop k ∧
        mm.txbl_en = false ∧ mm.txc_en = true ∧
        mm.sm.state = .active_trans ∧
        mm.tx_done_evt = mdl.tx_done_evt ∧
        mm.sleep_blocks = mdl.sleep_blocks ∧
        mm.sleep_unblocks = mdl.sleep_unblocks ∧
        mm.posted_events = mdl.posted_events := by
  intro m
  induction m with
  | zero => intro k mdl _ _ _ _ _ _ hm; omega
  | succ mq ih =>
    intro k mdl hst hlen hout hcnt hk hksum _
    have hdk : string.drop k = string.getD k 0 :: string.drop (k + 1) := by
      have hklt : k < string.length := by omega
      rw [List.getD_eq_getElem string 0 hklt]
      exact List.drop_eq_getElem_cons hklt
    cases mq with
    | zero =>
      have hlast : mdl.sm.count = mdl.sm.str_length - 1 := by omega
      have hstep := leuart_txbl_step_send_data mdl hst
      rw [if_pos hlast] at hstep
      have hdrop : string.drop (k + 1) = [] := List.drop_eq_nil_of_le (by omega)
      refine ⟨{ mdl with
          txdata := mdl.txdata ++ [mdl.sm.output.getD mdl.sm.count 0]
          sm := { mdl.sm with count := mdl.sm.count + 1, state := .active_trans }
          txbl_en := false
          txc_en := true }, ?_, ?_, rfl, rfl, rfl, rfl, rfl, rfl, rfl⟩
      · show (leuart0_txbl_interrupt mdl).bind (iterate_txbl 0) = _
        rw [hstep]
        rfl
      · show mdl.txdata ++ [mdl.sm.output.getD mdl.sm.count 0] =
          mdl.txdata ++ string.drop k
        rw [hout, hcnt, hdk, hdrop]
    | succ mq' =>
      have hnotlast : ¬ (mdl.sm.count = mdl.sm.str_length - 1) := by omega
      have hstep := leuart_txbl_step_send_data mdl hst
      rw [if_neg hnotlast] at hstep
      obtain ⟨mm, hrun, htx, hbl, hc, hstt, hevt, hsb, hsu, hpe⟩ :=
        ih (k + 1)
          { mdl with
            txdata := mdl.txdata ++ [mdl.sm.output.getD mdl.sm.count 0]
            sm := { mdl.sm with count := mdl.sm.count + 1 } }
          hst hlen hout (by rw [hcnt]) (by omega) (by omega) (by omega)
      refine ⟨mm, ?_, ?_, hbl, hc, hstt, hevt, hsb, hsu, hpe⟩
      · show (leuart0_txbl_interrupt mdl).bind (iterate_txbl (mq' + 1)) = some mm
        rw [hstep]
        exact hrun
      · rw [htx]
        show (mdl.txdata ++ [mdl.sm.output.getD mdl.sm.count 0]) ++ string.drop (k + 1) =
          mdl.txdata ++ string.drop k
        rw [hout, hcnt, hdk, List.append_assoc, List.singleton_append]

/-- The full claimed interrupt sequence of a drain request: `string.length`
TXBL deliveries followed by the two TXC deliveries. -/
def leuart_tx_run (mdl : LEUART_MODEL) (string : List ℕ) : Option LEUART_MODEL :=
  (iterate_txbl string.length (leuart_start mdl string string.length)).bind fun m1 =>
  (leuart0_txc_interrupt m1).bind leuart0_txc_interrupt

/-- Claim C7 (amended: payload length at least 2): a drain request for a
payload of length `L` with `2 ≤ L ≤ 79` (fitting the 80-byte context buffer)
followed by `L` TXBL interrupts transmits exactly the `L` payload bytes in
order, disables TXBL and enables TXC at the last byte, and the two TXC
deliveries then disable TXC, release the sleep hold exactly once, post the
tx-done event exactly once and leave the machine un-busy. For `L = 1` the
single byte is sent from the `idle` state without disabling TXBL — see the
counterexample. -/
theorem leuart_tx_run_delivers (mdl : LEUART_MODEL) (string : List ℕ)
    (h2 : 2 ≤ string.length) (h80 : string.length ≤ 79) :
    ∃ mm mf,
      iterate_txbl string.length (leuart_start mdl string string.length) = some mm ∧
      mm.txdata = mdl.txdata ++ string ∧
      mm.txbl_en = false ∧ mm.txc_en = true ∧
      leuart_tx_run mdl string = some mf ∧
      mf.txdata = mdl.txdata ++ string ∧
      mf.txc_en = false ∧ mf.sm.sm_busy = false ∧
      mf.sleep_blocks = mdl.sleep_blocks + 1 ∧
      mf.sleep_unblocks = mdl.sleep_unblocks + 1 ∧
      mf.posted_events = mdl.posted_events ++ [mdl.tx_done_evt] := by
  obtain ⟨L2, hL2⟩ : ∃ L2, string.length = L2 + 2 := ⟨string.length - 2, by omega⟩
  have hstep1 := leuart_txbl_step_idle (leuart_start mdl string string.length) rfl
  obtain ⟨mm, hrun, htx, hbl, hc, hstt, hevt, hsb, hsu, hpe⟩ :=
    iterate_txbl_sending string (L2 + 1) 1
      { leuart_start mdl string string.length with
        txdata := (leuart_start mdl string string.length).txdata ++
          [(leuart_start mdl string string.length).sm.output.getD
            (leuart_start mdl string string.length).sm.count 0]
        sm := { (leuart_start mdl string string.length).sm with
          count := (leuart_start mdl string string.length).sm.count + 1
          state := .send_data } }
      rfl rfl rfl rfl (by omega) (by omega) (by omega)
  have hgen : ∀ s : LEUART_MODEL, iterate_txbl string.length s =
      (leuart0_txbl_interrupt s).bind (iterate_txbl (L2 + 1)) := by
    intro s
    rw [hL2]
    show iterate_txbl ((L2 + 1) + 1) s = _
    rfl
  have hfull : iterate_txbl string.length (leuart_start mdl string string.length) =
      some mm := by
    rw [hgen (leuart_start mdl string string.length), hstep1]
    exact hrun
  have hcons : string.getD 0 0 :: string.drop 1 = string := by
    cases string with
    | nil => simp at h2
    | cons a l => rfl
  have htxfull : mm.txdata = mdl.txdata ++ string := by
    rw [htx]
    show (mdl.txdata ++ [string.getD 0 0]) ++ string.drop 1 = mdl.txdata ++ string
    rw [List.append_assoc, List.singleton_append, hcons]
  have htxc1 := leuart_txc_step_active mm hstt
  refine ⟨mm, { mm with
      txc_en := false
      sm := { mm.sm with state := .end_comm, sm_busy := false }
      sleep_unblocks := mm.sleep_unblocks + 1
      posted_events := mm.posted_events ++ [mm.tx_done_evt] },
    hfull, htxfull, hbl, hc, ?_, ?_, rfl, rfl, ?_, ?_, ?_⟩
  · show (iterate_txbl string.length (leuart_start mdl string string.length)).bind
      (fun m1 => (leuart0_txc_interrupt m1).bind leuart0_txc_interrupt) = some _
    rw [hfull]
    show (leuart0_txc_interrupt mm).bind leuart0_txc_interrupt = some _
    rw [htxc1]
    rfl
  · exact htxfull
  · exact hsb
  · show mm.sleep_unblocks + 1 = mdl.sleep_unblocks + 1
    exact congrArg (fun x => x + 1) hsu
  · show mm.posted_events ++ [mm.tx_done_evt] = mdl.posted_events ++ [mdl.tx_done_evt]
    rw [hpe, hevt]
    rfl

/-- Witness for the amended C7 at a concrete model and payload `[3, 4]`. -/
theorem leuart_tx_run_delivers_witness :
    ∃ mm mf,
      iterate_txbl ([3, 4] : List ℕ).length
          (leuart_start ⟨⟨false, 0, .idle, [], 0⟩, false, false, [], 7, 0, 0, []⟩
            [3, 4] ([3, 4] : List ℕ).length) = some mm ∧
      mm.txdata = [] ++ [3, 4] ∧
      mm.txbl_en = false ∧ mm.txc_en = true ∧
      leuart_tx_run ⟨⟨false, 0, .idle, [], 0⟩, false, false, [], 7, 0, 0, []⟩ [3, 4] =
        some mf ∧
      mf.txdata = [] ++ [3, 4] ∧
      mf.txc_en = false ∧ mf.sm.sm_busy = false ∧
      mf.sleep_blocks = 0 + 1 ∧
      mf.sleep_unblocks = 0 + 1 ∧
      mf.posted_events = [] ++ [7] :=
  leuart_tx_run_delivers ⟨⟨false, 0, .idle, [], 0⟩, false, false, [], 7, 0, 0, []⟩
    [3, 4] (by norm_num) (by norm_num)

/-- Claim C7 counterexample: for a payload of length `L = 1`, the single (and
last) byte is sent by the TXBL delivery in the `idle` state, which neither
disables TXBL nor enables TXC; the machine sits in `send_data` with TXBL still
enabled, and the next TXBL delivery sends a byte beyond the payload. -/
theorem leuart_single_byte_keeps_txbl :
    (iterate_txbl 1 (leuart_start ⟨⟨false, 0, .idle, [], 0⟩, false, false, [], 7, 0, 0, []⟩
        [9] 1)).isSome = true ∧
    ((iterate_txbl 1 (leuart_start ⟨⟨false, 0, .idle, [], 0⟩, false, false, [], 7, 0, 0, []⟩
        [9] 1)).getD
      (leuart_start ⟨⟨false, 0, .idle, [], 0⟩, false, false, [], 7, 0, 0, []⟩ [9] 1)).txdata
      = [9] ∧
    ((iterate_txbl 1 (leuart_start ⟨⟨false, 0, .idle, [], 0⟩, false, false, [], 7, 0, 0, []⟩
        [9] 1)).getD
      (leuart_start ⟨⟨false, 0, .idle, [], 0⟩, false, false, [], 7, 0, 0, []⟩ [9] 1)).txbl_en
      = true ∧
    ((iterate_txbl 1 (leuart_start ⟨⟨false, 0, .idle, [], 0⟩, false, false, [], 7, 0, 0, []⟩
        [9] 1)).getD
      (leuart_start ⟨⟨false, 0, .idle, [], 0⟩, false, false, [], 7, 0, 0, []⟩ [9] 1)).txc_en
      = false ∧
    ((iterate_txbl 2 (leuart_start ⟨⟨false, 0, .idle, [], 0⟩, false, false, [], 7, 0, 0, []⟩
        [9] 1)).getD
      (leuart_start ⟨⟨false, 0, .idle, [], 0⟩, false, false, [], 7, 0, 0, []⟩ [9] 1)).txdata
      = [9, 0] := by
  refine ⟨rfl, rfl, rfl, rfl, rfl⟩

/-! ## Unexpected-interrupt handling of both state machines (claim C3) -/

/-- The four interrupt conditions the bus machine's IRQ handler dispatches on
(plus START, which `i2c_open` also enables). -/
inductive I2C_INT where
  | start
  | ack
  | nack
  | mstop
  | rxdatav
deriving DecidableEq, Repr

/-- Dispatch one bus-machine interrupt to its handler, as `I2C0_IRQHandler`
does; `rxdata` is the `RXDATA` value for a data-available interrupt. -/
def i2c_dispatch (intr : I2C_INT) (rxdata : ℕ) (mdl : I2C_MODEL) : Option I2C_MODEL :=
  match intr with
  | .start => i2c_start_interrupt mdl
  | .ack => i2c_ack_interrupt mdl
  | .nack => i2c_nack_interrupt mdl
  | .mstop => i2c_mstop_interrupt mdl
  | .rxdatav => i2c_rxdatav_interrupt rxdata mdl

/-- The transitions the spec lists as valid for the bus machine: acknowledge
in `start`, `send_command` and `await_read_request`, not-acknowledge in
`await_read_request` (the retry), data-available in the two read states, and
stop-confirmed in `stop`. Stated from the spec, to compare against the code's
fatal set. -/
def i2c_spec_valid (intr : I2C_INT) (st : DEFINED_STATES) : Bool :=
  match intr, st with
  | .ack, .start_comm => true
  | .ack, .send_cmd => true
  | .ack, .read_request => true
  | .nack, .read_request => true
  | .rxdatav, .read_ms_byte => true
  | .rxdatav, .read_ls_byte => true
  | .mstop, .stop_comm => true
  | _, _ => false

/-- The (interrupt, state) pairs on which the bus machine's handlers actually
hit `EFM_ASSERT(false)`, read off i2c.c's switch statements. -/
def i2c_code_fatal (intr : I2C_INT) (st : DEFINED_STATES) : Bool :=
  match intr, st with
  | .start, .stop_comm => true
  | .start, _ => false
  | .ack, .stop_comm => true
  | .ack, _ => false
  | .nack, .start_comm => true
  | .nack, .read_ms_byte => true
  | .nack, .read_ls_byte => true
  | .nack, .stop_comm => true
  | .nack, _ => false
  | .mstop, .stop_comm => false
  | .mstop, _ => true
  | .rxdatav, .read_ms_byte => false
  | .rxdatav, .read_ls_byte => false
  | .rxdatav, _ => true

/-- The two transmit-machine interrupts. -/
inductive LEUART_INT where
  | txbl
  | txc
deriving DecidableEq, Repr

/-- Dispatch one transmit-machine interrupt, as `LEUART0_IRQHandler` does. -/
def leuart_dispatch (intr : LEUART_INT) (mdl : LEUART_MODEL) : Option LEUART_MODEL :=
  match intr with
  | .txbl => leuart0_txbl_interrupt mdl
  | .txc => leuart0_txc_interrupt mdl

/-- The transitions the spec lists as valid for the transmit machine: TXBL in
`idle` and `sending`, TXC in `last_byte_sent` and `complete`. Stated from the
spec, to compare against the code's fatal set. -/
def leuart_spec_valid (intr : LEUART_INT) (st : LEUART_STATES) : Bool :=
  match intr, st with
  | .txbl, .idle => true
  | .txbl, .send_data => true
  | .txc, .active_trans => true
  | .txc, .end_comm => true
  | _, _ => false

/-- Claim C3 counterexample: an acknowledge delivered while the bus machine is
in `read_high_byte` (`read_ms_byte`) — one of the claim's own examples of an
invalid transition — is a bare `break` in `i2c_ack_interrupt`: the dispatch
returns the model unchanged instead of hitting the fatal assertion. -/
theorem i2c_ack_in_read_ms_byte_silent :
    i2c_spec_valid .ack .read_ms_byte = false ∧
    i2c_dispatch .ack 0 ⟨⟨.read_ms_byte, 64, 243, true, true, 0⟩, 9, 1, 0, []⟩ =
      some ⟨⟨.read_ms_byte, 64, 243, true, true, 0⟩, 9, 1, 0, []⟩ := by
  decide

/-- Claim C3 (amended): the transmit machine does treat every interrupt
outside its listed transitions as fatal; the bus machine treats an unexpected
interrupt as fatal exactly on the `i2c_code_fatal` pairs, and silently ignores
(bare `break`, model returned unchanged) the remaining unexpected pairs —
START in any non-`stop` state, ACK in `read_high_byte`/`read_low_byte`, and
NACK in `send_command`. -/
theorem unexpected_interrupt_fatality (mdl : I2C_MODEL) (rxdata : ℕ) (intr : I2C_INT)
    (lmdl : LEUART_MODEL) (lintr : LEUART_INT) :
    (i2c_dispatch intr rxdata mdl = none ↔
      i2c_code_fatal intr mdl.sm.state = true) ∧
    (i2c_spec_valid intr mdl.sm.state = false →
      i2c_code_fatal intr mdl.sm.state = false →
      i2c_dispatch intr rxdata mdl = some mdl) ∧
    (leuart_spec_valid lintr lmdl.sm.state = false →
      leuart_dispatch lintr lmdl = none) := by
  obtain ⟨⟨st, da, cmd, busy, rd, rv⟩, cb, sb, su, pe⟩ := mdl
  obtain ⟨⟨lbusy, lslen, lst, lout, lcnt⟩, ltxbl, ltxc, ltxd, levt, lsb, lsu, lpe⟩ := lmdl
  cases intr <;> cases st <;> cases lintr <;> cases lst <;>
    simp [i2c_dispatch, i2c_start_interrupt, i2c_ack_interrupt, i2c_nack_interrupt,
      i2c_mstop_interrupt, i2c_rxdatav_interrupt, i2c_spec_valid, i2c_code_fatal,
      leuart_dispatch, leuart0_txbl_interrupt, leuart0_txc_interrupt, leuart_spec_valid]

/-- Witness for the amended C3: START in `start_comm` is unexpected yet
silently ignored by the bus machine, and TXBL in `active_trans` is unexpected
and fatal for the transmit machine. -/
theorem unexpected_interrupt_fatality_witness :
    (i2c_dispatch .start 0 ⟨⟨.start_comm, 0, 0, false, false, 0⟩, 0, 0, 0, []⟩ = none ↔
      i2c_code_fatal .start
        (⟨⟨.start_comm, 0, 0, false, false, 0⟩, 0, 0, 0, []⟩ : I2C_MODEL).sm.state = true) ∧
    (i2c_spec_valid .start
        (⟨⟨.start_comm, 0, 0, false, false, 0⟩, 0, 0, 0, []⟩ : I2C_MODEL).sm.state = false →
      i2c_code_fatal .start
        (⟨⟨.start_comm, 0, 0, false, false, 0⟩, 0, 0, 0, []⟩ : I2C_MODEL).sm.state = false →
      i2c_dispatch .start 0 ⟨⟨.start_comm, 0, 0, false, false, 0⟩, 0, 0, 0, []⟩ =
        some ⟨⟨.start_comm, 0, 0, false, false, 0⟩, 0, 0, 0, []⟩) ∧
    (leuart_spec_valid .txbl
        (⟨⟨true, 2, .active_trans, [3, 4], 2⟩, false, true, [3, 4], 7, 1, 0, []⟩ :
          LEUART_MODEL).sm.state = false →
      leuart_dispatch .txbl
        ⟨⟨true, 2, .active_trans, [3, 4], 2⟩, false, true, [3, 4], 7, 1, 0, []⟩ = none) :=
  unexpected_interrupt_fatality ⟨⟨.start_comm, 0, 0, false, false, 0⟩, 0, 0, 0, []⟩ 0
    .start ⟨⟨true, 2, .active_trans, [3, 4], 2⟩, false, true, [3, 4], 7, 1, 0, []⟩ .txbl

end ECEN2370
